import Mathlib

/-!
Verification of the conan-wrapper crate (src/lib.rs, src/cargo.rs).

Shallow embedding conventions:
- Rust `String`/`&str` become Lean `String`; `Vec<T>` becomes `List T`.
- `HashMap<K, V>` has an unspecified iteration order; it is embedded as an
  association list `List (K × V)` whose list order stands for the iteration
  order the map happens to choose.  Statements about maps therefore quantify
  over all orders.
- `Option<T>` becomes `Option T`.
- Process spawning is an external collaborator: the pure parsing functions are
  modelled on the captured stdout text they actually inspect.
-/

/-! ## Configuration model (src/lib.rs lines 133-208) -/

inductive InstallTarget where
  | ConanFile (path : String) (reference : Option String)
  | Package (reference : String)
deriving DecidableEq

structure Generator where
  name : String
deriving DecidableEq

inductive BuildConfiguration where
  | All
  | Never
  | Missing
  | Cascade
  | Outdated
  | Package (pattern : String)
deriving DecidableEq

structure InstallArguments where
  install_target : InstallTarget
  generators : List Generator
  install_folder : String
  no_imports : Bool
  build_configurations : List BuildConfiguration
  envs : List (String × String)
  envs_build : List (String × String)
  options : List (String × String)
  options_build : List (String × String)
  profile : Option String
  profile_build : Option String
  remote : Option String
  settings : List (String × String)
  settings_build : List (String × String)
  check_update : Bool
deriving DecidableEq

/-! ## Argument compiler (src/lib.rs lines 211-310)

The Rust function pushes tokens onto a vector in program order; the embedding
writes the same emission as a concatenation of the pushed segments. -/

/-- Target tokens: the match on `self.install_target` (lines 214-224). -/
def installTargetTokens : InstallTarget → List String
  | InstallTarget.ConanFile path reference =>
      path :: (match reference with
        | some r => [r]
        | none => [])
  | InstallTarget.Package reference => [reference]

/-- One `--build` directive: the loop body at lines 238-258. -/
def buildConfigurationTokens : BuildConfiguration → List String
  | BuildConfiguration.All => ["--build"]
  | BuildConfiguration.Never => ["--build", "never"]
  | BuildConfiguration.Missing => ["--build", "missing"]
  | BuildConfiguration.Cascade => ["--build", "cascade"]
  | BuildConfiguration.Outdated => ["--build", "outdated"]
  | BuildConfiguration.Package pattern => ["--build", pattern]

/-- One of the six map-emitting loops (lines 260-278 and 295-303): for each
entry push the flag and then `key=value`. -/
def pairsTokens (flag : String) (entries : List (String × String)) : List String :=
  entries.flatMap (fun kv => [flag, kv.1 ++ "=" ++ kv.2])

/-- The `if let Some(x)` pushes for `-pr`, `-pr:b` and `-r` (lines 280-293). -/
def optFlagTokens (flag : String) : Option String → List String
  | some v => [flag, v]
  | none => []

/-- `InstallArguments::to_commandline_arguments` (src/lib.rs lines 211-310). -/
def to_commandline_arguments (a : InstallArguments) : List String :=
  ["install"]
  ++ installTargetTokens a.install_target
  ++ a.generators.flatMap (fun g => ["-g", g.name])
  ++ ["-if", a.install_folder]
  ++ (if a.no_imports then ["--no-imports"] else [])
  ++ a.build_configurations.flatMap buildConfigurationTokens
  ++ pairsTokens "-e" a.envs
  ++ pairsTokens "-e:b" a.envs_build
  ++ pairsTokens "-o" a.options
  ++ pairsTokens "-o:b" a.options_build
  ++ optFlagTokens "-pr" a.profile
  ++ optFlagTokens "-pr:b" a.profile_build
  ++ optFlagTokens "-r" a.remote
  ++ pairsTokens "-s" a.settings
  ++ pairsTokens "-s:b" a.settings_build
  ++ (if a.check_update then ["--update"] else [])

/-- Modelled from the spec: the emission order of section 4.1 exactly as the
spec states it - the target tokens come first and the eleven groups follow;
the spec sentence mentions no leading subcommand token. -/
def spec_argument_order (a : InstallArguments) : List String :=
  (match a.install_target with
   | InstallTarget.ConanFile path reference =>
       [path] ++ (match reference with
         | some r => [r]
         | none => [])
   | InstallTarget.Package reference => [reference])
  ++ a.generators.flatMap (fun g => ["-g", g.name])
  ++ ["-if", a.install_folder]
  ++ (if a.no_imports then ["--no-imports"] else [])
  ++ a.build_configurations.flatMap (fun bc =>
       ["--build"] ++ (match bc with
         | BuildConfiguration.All => []
         | BuildConfiguration.Never => ["never"]
         | BuildConfiguration.Missing => ["missing"]
         | BuildConfiguration.Cascade => ["cascade"]
         | BuildConfiguration.Outdated => ["outdated"]
         | BuildConfiguration.Package pattern => [pattern]))
  ++ a.envs.flatMap (fun e => ["-e", e.1 ++ "=" ++ e.2])
  ++ a.envs_build.flatMap (fun e => ["-e:b", e.1 ++ "=" ++ e.2])
  ++ a.options.flatMap (fun o => ["-o", o.1 ++ "=" ++ o.2])
  ++ a.options_build.flatMap (fun o => ["-o:b", o.1 ++ "=" ++ o.2])
  ++ (match a.profile with
      | some p => ["-pr", p]
      | none => [])
  ++ (match a.profile_build with
      | some p => ["-pr:b", p]
      | none => [])
  ++ (match a.remote with
      | some r => ["-r", r]
      | none => [])
  ++ a.settings.flatMap (fun s => ["-s", s.1 ++ "=" ++ s.2])
  ++ a.settings_build.flatMap (fun s => ["-s:b", s.1 ++ "=" ++ s.2])
  ++ (if a.check_update then ["--update"] else [])

/-- A minimal configuration used as concrete input for the compiler claims. -/
def minimalConfig : InstallArguments :=
  { install_target := InstallTarget.Package "zlib/1.2.11@_/_"
    generators := []
    install_folder := "build"
    no_imports := false
    build_configurations := []
    envs := []
    envs_build := []
    options := []
    options_build := []
    profile := none
    profile_build := none
    remote := none
    settings := []
    settings_build := []
    check_update := false }

/-- Claim C1, counterexample: on a concrete configuration the emitted vector is
not the section 4.1 sequence alone - the subcommand token "install" is emitted
in front of the target, so the claim as stated fails. -/
theorem c1_counterexample :
    to_commandline_arguments minimalConfig ≠ spec_argument_order minimalConfig := by
  decide

/-- Claim C1 (amended): to_commandline_arguments emits the literal token
"install" first and then exactly the section 4.1 groups in order: the target,
the generator pairs, `-if` and the folder, `--no-imports` when set, the build
directives, the env pairs, the option pairs, the profiles, the remote, the
setting pairs and finally `--update` when set; nothing else, and the function
is a pure function of the configuration. -/
theorem c1_install_then_spec_order (a : InstallArguments) :
    to_commandline_arguments a = "install" :: spec_argument_order a := by
  have htarget : ∀ t : InstallTarget, installTargetTokens t =
      (match t with
       | InstallTarget.ConanFile path reference =>
           [path] ++ (match reference with
             | some r => [r]
             | none => [])
       | InstallTarget.Package reference => [reference]) := by
    intro t
    cases t with
    | ConanFile p r => cases r <;> rfl
    | Package r => rfl
  have hbcfun : buildConfigurationTokens = (fun bc =>
      ["--build"] ++ (match bc with
        | BuildConfiguration.All => []
        | BuildConfiguration.Never => ["never"]
        | BuildConfiguration.Missing => ["missing"]
        | BuildConfiguration.Cascade => ["cascade"]
        | BuildConfiguration.Outdated => ["outdated"]
        | BuildConfiguration.Package pattern => [pattern])) := by
    funext bc
    cases bc <;> rfl
  have hopt : ∀ (flag : String) (o : Option String), optFlagTokens flag o =
      (match o with
       | some p => [flag, p]
       | none => []) := by
    intro flag o
    cases o <;> rfl
  simp only [to_commandline_arguments, spec_argument_order, pairsTokens,
    htarget, hbcfun, hopt, List.append_assoc, List.singleton_append,
    List.cons_append, List.nil_append]

/-- Claim C10: the argument vector is non-empty and its first token is the
literal string "install", before the target tokens and every flag. -/
theorem c10_first_token_install (a : InstallArguments) :
    to_commandline_arguments a ≠ [] ∧
      (to_commandline_arguments a).head? = some "install" := by
  refine ⟨fun h => ?_, rfl⟩
  have h2 : (to_commandline_arguments a).head? = some "install" := rfl
  rw [h] at h2
  exact Option.noConfusion h2

/-- Claim C3: each build-configuration entry independently produces one
`--build` directive in list order; `All` emits the bare flag with no value
token, the named policies emit their value, `Package` emits its pattern, and
`[Missing, Outdated]` emits the contiguous tokens
`--build missing --build outdated`. -/
theorem c3_build_directives :
    (∀ a : InstallArguments, ∃ pre post,
        to_commandline_arguments a
          = pre ++ a.build_configurations.flatMap buildConfigurationTokens ++ post) ∧
    buildConfigurationTokens BuildConfiguration.All = ["--build"] ∧
    buildConfigurationTokens BuildConfiguration.Never = ["--build", "never"] ∧
    buildConfigurationTokens BuildConfiguration.Missing = ["--build", "missing"] ∧
    buildConfigurationTokens BuildConfiguration.Cascade = ["--build", "cascade"] ∧
    buildConfigurationTokens BuildConfiguration.Outdated = ["--build", "outdated"] ∧
    (∀ p, buildConfigurationTokens (BuildConfiguration.Package p) = ["--build", p]) ∧
    [BuildConfiguration.Missing, BuildConfiguration.Outdated].flatMap buildConfigurationTokens
      = ["--build", "missing", "--build", "outdated"] := by
  refine ⟨fun a => ?_, rfl, rfl, rfl, rfl, rfl, fun p => rfl, rfl⟩
  refine ⟨["install"] ++ installTargetTokens a.install_target
      ++ a.generators.flatMap (fun g => ["-g", g.name])
      ++ ["-if", a.install_folder]
      ++ (if a.no_imports then ["--no-imports"] else []),
    pairsTokens "-e" a.envs
      ++ pairsTokens "-e:b" a.envs_build
      ++ pairsTokens "-o" a.options
      ++ pairsTokens "-o:b" a.options_build
      ++ optFlagTokens "-pr" a.profile
      ++ optFlagTokens "-pr:b" a.profile_build
      ++ optFlagTokens "-r" a.remote
      ++ pairsTokens "-s" a.settings
      ++ pairsTokens "-s:b" a.settings_build
      ++ (if a.check_update then ["--update"] else []), ?_⟩
  simp [to_commandline_arguments, List.append_assoc]

/-! ## Exactly-once emission for the map-valued fields (claim C4) -/

lemma append_cons_inj {α : Type} {c : α} :
    ∀ (l1 : List α) {l2 r1 r2 : List α}, c ∉ l1 → c ∉ l2 →
      l1 ++ c :: r1 = l2 ++ c :: r2 → l1 = l2 ∧ r1 = r2 := by
  intro l1
  induction l1 with
  | nil =>
    intro l2 r1 r2 _ h2 heq
    cases l2 with
    | nil =>
      simp only [List.nil_append] at heq
      injection heq with _ ht
      exact ⟨rfl, ht⟩
    | cons b t =>
      simp only [List.nil_append, List.cons_append] at heq
      injection heq with hb _
      exact absurd (hb ▸ List.mem_cons_self b t) h2
  | cons a t ih =>
    intro l2 r1 r2 h1 h2 heq
    cases l2 with
    | nil =>
      simp only [List.nil_append, List.cons_append] at heq
      injection heq with hb _
      exact absurd (hb.symm ▸ List.mem_cons_self a t) h1
    | cons b t2 =>
      simp only [List.cons_append] at heq
      injection heq with hab htail
      have h1t : c ∉ t := fun hm => h1 (List.mem_cons_of_mem a hm)
      have h2t : c ∉ t2 := fun hm => h2 (List.mem_cons_of_mem b hm)
      obtain ⟨he, hr⟩ := ih h1t h2t htail
      exact ⟨by rw [hab, he], hr⟩

lemma str_data_append (a b : String) : (a ++ b).data = a.data ++ b.data := by
  cases a
  cases b
  rfl

lemma key_value_token_data (k v : String) :
    (k ++ "=" ++ v).data = k.data ++ '=' :: v.data := by
  rw [str_data_append, str_data_append]
  simp

lemma eq_mem_key_value_token (k v : String) : ('=' : Char) ∈ (k ++ "=" ++ v).data := by
  rw [key_value_token_data]
  simp

lemma key_value_token_inj {k1 v1 k2 v2 : String}
    (h1 : ('=' : Char) ∉ k1.data) (h2 : ('=' : Char) ∉ k2.data)
    (heq : k1 ++ "=" ++ v1 = k2 ++ "=" ++ v2) : k1 = k2 ∧ v1 = v2 := by
  have hd : k1.data ++ '=' :: v1.data = k2.data ++ '=' :: v2.data := by
    have h := congrArg String.data heq
    rwa [key_value_token_data, key_value_token_data] at h
  obtain ⟨hk, hv⟩ := append_cons_inj k1.data h1 h2 hd
  cases k1; cases k2; cases v1; cases v2
  exact ⟨congrArg String.mk (by simpa using hk), congrArg String.mk (by simpa using hv)⟩

lemma key_value_token_ne_flag {flag k v : String}
    (hflag : ('=' : Char) ∉ flag.data) : k ++ "=" ++ v ≠ flag := by
  intro h
  exact hflag (h ▸ eq_mem_key_value_token k v)

lemma pairsTokens_count_zero {flag k v : String} :
    ∀ (m : List (String × String)),
      k ∉ m.map Prod.fst →
      (∀ p ∈ m, ('=' : Char) ∉ p.1.data) →
      ('=' : Char) ∉ k.data →
      ('=' : Char) ∉ flag.data →
      (pairsTokens flag m).count (k ++ "=" ++ v) = 0 := by
  intro m
  induction m with
  | nil => intro _ _ _ _; rfl
  | cons p rest ih =>
    intro hk hkeys hknoeq hflag
    obtain ⟨k2, v2⟩ := p
    have hk2 : k ≠ k2 := by
      intro h
      exact hk (by simp [h])
    have hne2 : k ++ "=" ++ v ≠ k2 ++ "=" ++ v2 := fun h =>
      hk2 (key_value_token_inj hknoeq (hkeys (k2, v2) (List.mem_cons_self _ _)) h).1
    have hrest := ih (fun h => hk (List.mem_cons_of_mem _ h))
      (fun q hq => hkeys q (List.mem_cons_of_mem _ hq)) hknoeq hflag
    simp only [pairsTokens, List.flatMap_cons, List.cons_append, List.nil_append] at hrest ⊢
    rw [List.count_cons, List.count_cons]
    simp [Ne.symm hne2, Ne.symm (key_value_token_ne_flag hflag), hrest]

lemma pairsTokens_once {flag k v : String} :
    ∀ (m : List (String × String)),
      ('=' : Char) ∉ flag.data →
      (m.map Prod.fst).Nodup →
      (∀ p ∈ m, ('=' : Char) ∉ p.1.data) →
      (k, v) ∈ m →
      (pairsTokens flag m).count (k ++ "=" ++ v) = 1 ∧
      ∃ l r, pairsTokens flag m = l ++ flag :: (k ++ "=" ++ v) :: r := by
  intro m
  induction m with
  | nil => intro _ _ _ hmem; cases hmem
  | cons p rest ih =>
    intro hflag hnd hkeys hmem
    obtain ⟨k2, v2⟩ := p
    have hndtail : (rest.map Prod.fst).Nodup := (List.nodup_cons.mp hnd).2
    have hk2notin : k2 ∉ rest.map Prod.fst := (List.nodup_cons.mp hnd).1
    have hkeystail : ∀ q ∈ rest, ('=' : Char) ∉ q.1.data :=
      fun q hq => hkeys q (List.mem_cons_of_mem _ hq)
    have hk2noeq : ('=' : Char) ∉ k2.data := hkeys (k2, v2) (List.mem_cons_self _ _)
    rcases List.mem_cons.mp hmem with hhead | htail
    · injection hhead with hk hv
      subst hk
      subst hv
      constructor
      · have hzero := @pairsTokens_count_zero flag k v rest
          hk2notin hkeystail hk2noeq hflag
        simp only [pairsTokens, List.flatMap_cons, List.cons_append,
          List.nil_append] at hzero ⊢
        rw [List.count_cons, List.count_cons]
        simp [Ne.symm (key_value_token_ne_flag hflag), hzero]
      · exact ⟨[], rest.flatMap (fun kv => [flag, kv.1 ++ "=" ++ kv.2]), by
          simp [pairsTokens]⟩
    · have hknoeq : ('=' : Char) ∉ k.data := (hkeystail (k, v) htail)
      have hkinkeys : k ∈ rest.map Prod.fst := List.mem_map.mpr ⟨(k, v), htail, rfl⟩
      have hkne : k ≠ k2 := fun h => hk2notin (h ▸ hkinkeys)
      have hne2 : k ++ "=" ++ v ≠ k2 ++ "=" ++ v2 := fun h =>
        hkne (key_value_token_inj hknoeq hk2noeq h).1
      obtain ⟨hcount, l, r, hdecomp⟩ := ih hflag hndtail hkeystail htail
      constructor
      · simp only [pairsTokens, List.flatMap_cons, List.cons_append,
          List.nil_append] at hcount ⊢
        rw [List.count_cons, List.count_cons]
        simp [Ne.symm hne2, Ne.symm (key_value_token_ne_flag hflag), hcount]
      · refine ⟨flag :: (k2 ++ "=" ++ v2) :: l, r, ?_⟩
        simp only [pairsTokens, List.flatMap_cons, List.cons_append, List.nil_append]
        rw [show rest.flatMap (fun kv => [flag, kv.1 ++ "=" ++ kv.2]) = pairsTokens flag rest from rfl,
          hdecomp]

/-- Claim C4 (amended): provided no key contains the character `=` and keys in
a map are unique, each key of each of the six map-valued fields is emitted
exactly once in that map's segment of the argument vector, as `key=value`
preceded by the map's flag; no key is duplicated or dropped, whatever
iteration order the map chooses.  Each map's segment occurs inside
to_commandline_arguments. -/
theorem c4_map_keys_emitted_once :
    (∀ (flag k v : String) (m : List (String × String)),
        ('=' : Char) ∉ flag.data →
        (m.map Prod.fst).Nodup →
        (∀ p ∈ m, ('=' : Char) ∉ p.1.data) →
        (k, v) ∈ m →
        (pairsTokens flag m).count (k ++ "=" ++ v) = 1 ∧
        ∃ l r, pairsTokens flag m = l ++ flag :: (k ++ "=" ++ v) :: r) ∧
    (∀ a : InstallArguments, ∀ flagged ∈
        [("-e", a.envs), ("-e:b", a.envs_build), ("-o", a.options),
         ("-o:b", a.options_build), ("-s", a.settings), ("-s:b", a.settings_build)],
        ∃ l r, to_commandline_arguments a
          = l ++ pairsTokens flagged.1 flagged.2 ++ r) := by
  constructor
  · exact fun flag k v m hflag hnd hkeys hmem => pairsTokens_once m hflag hnd hkeys hmem
  · intro a flagged hmem
    fin_cases hmem
    · exact ⟨["install"] ++ installTargetTokens a.install_target
        ++ a.generators.flatMap (fun g => ["-g", g.name])
        ++ ["-if", a.install_folder]
        ++ (if a.no_imports then ["--no-imports"] else [])
        ++ a.build_configurations.flatMap buildConfigurationTokens,
        pairsTokens "-e:b" a.envs_build ++ pairsTokens "-o" a.options
        ++ pairsTokens "-o:b" a.options_build
        ++ optFlagTokens "-pr" a.profile ++ optFlagTokens "-pr:b" a.profile_build
        ++ optFlagTokens "-r" a.remote ++ pairsTokens "-s" a.settings
        ++ pairsTokens "-s:b" a.settings_build
        ++ (if a.check_update then ["--update"] else []),
        by simp [to_commandline_arguments, List.append_assoc]⟩
    · exact ⟨["install"] ++ installTargetTokens a.install_target
        ++ a.generators.flatMap (fun g => ["-g", g.name])
        ++ ["-if", a.install_folder]
        ++ (if a.no_imports then ["--no-imports"] else [])
        ++ a.build_configurations.flatMap buildConfigurationTokens
        ++ pairsTokens "-e" a.envs,
        pairsTokens "-o" a.options ++ pairsTokens "-o:b" a.options_build
        ++ optFlagTokens "-pr" a.profile ++ optFlagTokens "-pr:b" a.profile_build
        ++ optFlagTokens "-r" a.remote ++ pairsTokens "-s" a.settings
        ++ pairsTokens "-s:b" a.settings_build
        ++ (if a.check_update then ["--update"] else []),
        by simp [to_commandline_arguments, List.append_assoc]⟩
    · exact ⟨["install"] ++ installTargetTokens a.install_target
        ++ a.generators.flatMap (fun g => ["-g", g.name])
        ++ ["-if", a.install_folder]
        ++ (if a.no_imports then ["--no-imports"] else [])
        ++ a.build_configurations.flatMap buildConfigurationTokens
        ++ pairsTokens "-e" a.envs ++ pairsTokens "-e:b" a.envs_build,
        pairsTokens "-o:b" a.options_build
        ++ optFlagTokens "-pr" a.profile ++ optFlagTokens "-pr:b" a.profile_build
        ++ optFlagTokens "-r" a.remote ++ pairsTokens "-s" a.settings
        ++ pairsTokens "-s:b" a.settings_build
        ++ (if a.check_update then ["--update"] else []),
        by simp [to_commandline_arguments, List.append_assoc]⟩
    · exact ⟨["install"] ++ installTargetTokens a.install_target
        ++ a.generators.flatMap (fun g => ["-g", g.name])
        ++ ["-if", a.install_folder]
        ++ (if a.no_imports then ["--no-imports"] else [])
        ++ a.build_configurations.flatMap buildConfigurationTokens
        ++ pairsTokens "-e" a.envs ++ pairsTokens "-e:b" a.envs_build
        ++ pairsTokens "-o" a.options,
        optFlagTokens "-pr" a.profile ++ optFlagTokens "-pr:b" a.profile_build
        ++ optFlagTokens "-r" a.remote ++ pairsTokens "-s" a.settings
        ++ pairsTokens "-s:b" a.settings_build
        ++ (if a.check_update then ["--update"] else []),
        by simp [to_commandline_arguments, List.append_assoc]⟩
    · exact ⟨["install"] ++ installTargetTokens a.install_target
        ++ a.generators.flatMap (fun g => ["-g", g.name])
        ++ ["-if", a.install_folder]
        ++ (if a.no_imports then ["--no-imports"] else [])
        ++ a.build_configurations.flatMap buildConfigurationTokens
        ++ pairsTokens "-e" a.envs ++ pairsTokens "-e:b" a.envs_build
        ++ pairsTokens "-o" a.options ++ pairsTokens "-o:b" a.options_build
        ++ optFlagTokens "-pr" a.profile ++ optFlagTokens "-pr:b" a.profile_build
        ++ optFlagTokens "-r" a.remote,
        pairsTokens "-s:b" a.settings_build
        ++ (if a.check_update then ["--update"] else []),
        by simp [to_commandline_arguments, List.append_assoc]⟩
    · exact ⟨["install"] ++ installTargetTokens a.install_target
        ++ a.generators.flatMap (fun g => ["-g", g.name])
        ++ ["-if", a.install_folder]
        ++ (if a.no_imports then ["--no-imports"] else [])
        ++ a.build_configurations.flatMap buildConfigurationTokens
        ++ pairsTokens "-e" a.envs ++ pairsTokens "-e:b" a.envs_build
        ++ pairsTokens "-o" a.options ++ pairsTokens "-o:b" a.options_build
        ++ optFlagTokens "-pr" a.profile ++ optFlagTokens "-pr:b" a.profile_build
        ++ optFlagTokens "-r" a.remote ++ pairsTokens "-s" a.settings,
        (if a.check_update then ["--update"] else []),
        by simp [to_commandline_arguments, List.append_assoc]⟩

/-- Witness for claim C4 at a concrete flag, key/value and map. -/
theorem c4_witness :
    (pairsTokens "-e" [("a", "b")]).count ("a" ++ "=" ++ "b") = 1 ∧
    ∃ l r, pairsTokens "-e" [("a", "b")] = l ++ "-e" :: ("a" ++ "=" ++ "b") :: r :=
  c4_map_keys_emitted_once.1 "-e" "a" "b" [("a", "b")]
    (by decide) (by decide) (by decide) (by decide)

/-- A configuration whose two distinct env keys emit the same key=value
string, because a key contains the character `=`. -/
def collidingConfig : InstallArguments :=
  { minimalConfig with envs := [("a", "b=c"), ("a=b", "c")] }

/-- A configuration with the same entry in the host-env map and the
host-option map. -/
def crossMapConfig : InstallArguments :=
  { minimalConfig with envs := [("a", "b")], options := [("a", "b")] }

/-- Claim C4, counterexample: for the key "a" of the env map of
collidingConfig (whose keys are distinct) the token "a=b=c" occurs twice in
the argument vector, and for the key "a" of crossMapConfig (present in two
maps) the token "a=b" occurs twice, so the vector does not contain the
key=value token of a present key exactly once as the claim states. -/
theorem c4_counterexample :
    ¬ ((to_commandline_arguments collidingConfig).count ("a" ++ "=" ++ "b=c") = 1) ∧
    ¬ ((to_commandline_arguments crossMapConfig).count ("a" ++ "=" ++ "b") = 1) := by
  decide

/-! ## Platform mapper (src/cargo.rs lines 5-41)

The lazily initialized HashMaps are read-only translation tables; exact
lookup does not depend on iteration order, so they are embedded as
association lists with the same entries. -/

def CARGO_OS_TO_CONAN_OS : List (String × String) :=
  [("windows", "Windows"), ("linux", "Linux"), ("macos", "Macos"),
   ("android", "Android"), ("ios", "iOS"), ("freebsd", "FreeBSD")]

def CARGO_ARCH_TO_CONAN_ARCH : List (String × String) :=
  [("powerpc", "ppc32"), ("powerpc64", "ppc64"), ("arm", "armv7"),
   ("aarch64", "armv8")]

/-- `cargo_os_to_conan_os` (cargo.rs lines 22-25): table lookup with the
input itself as the fallback. -/
def cargo_os_to_conan_os (os_name : String) : String :=
  match CARGO_OS_TO_CONAN_OS.lookup os_name with
  | some s => s
  | none => os_name

/-- `cargo_arch_to_conan_arch` (cargo.rs lines 28-33). -/
def cargo_arch_to_conan_arch (arch_name : String) : String :=
  match CARGO_ARCH_TO_CONAN_ARCH.lookup arch_name with
  | some s => s
  | none => arch_name

/-- `cargo_profile_to_conan_build_type` (cargo.rs lines 35-41). -/
def cargo_profile_to_conan_build_type (profile : String) : String :=
  if profile = "debug" then "Debug"
  else if profile = "release" then "Release"
  else profile

lemma lookup_none_of_not_key {β : Type} :
    ∀ (l : List (String × β)) (s : String),
      s ∉ l.map Prod.fst → l.lookup s = none := by
  intro l
  induction l with
  | nil => intro s _; rfl
  | cons p t ih =>
    intro s hs
    obtain ⟨k, v⟩ := p
    have hne : (s == k) = false := by
      simp only [beq_eq_false_iff_ne, ne_eq]
      intro he
      exact hs (by simp [he])
    simp [List.lookup, hne, ih s (fun hm => hs (List.mem_cons_of_mem _ hm))]

/-- Claim C7: the platform mapper is total; OS and architecture tokens in the
tables are translated, the profile mapping sends debug to Debug and release
to Release, and any token absent from the relevant table is returned
unchanged. -/
theorem c7_platform_mapper :
    cargo_os_to_conan_os "windows" = "Windows" ∧
    cargo_os_to_conan_os "macos" = "Macos" ∧
    cargo_os_to_conan_os "ios" = "iOS" ∧
    cargo_arch_to_conan_arch "powerpc" = "ppc32" ∧
    cargo_arch_to_conan_arch "aarch64" = "armv8" ∧
    cargo_profile_to_conan_build_type "debug" = "Debug" ∧
    cargo_profile_to_conan_build_type "release" = "Release" ∧
    (∀ s, s ∉ CARGO_OS_TO_CONAN_OS.map Prod.fst → cargo_os_to_conan_os s = s) ∧
    (∀ s, s ∉ CARGO_ARCH_TO_CONAN_ARCH.map Prod.fst → cargo_arch_to_conan_arch s = s) ∧
    (∀ s, s ≠ "debug" → s ≠ "release" → cargo_profile_to_conan_build_type s = s) := by
  refine ⟨by decide, by decide, by decide, by decide, by decide, by decide,
    by decide, ?_, ?_, ?_⟩
  · intro s hs
    simp only [cargo_os_to_conan_os, lookup_none_of_not_key _ s hs]
  · intro s hs
    simp only [cargo_arch_to_conan_arch, lookup_none_of_not_key _ s hs]
  · intro s h1 h2
    simp [cargo_profile_to_conan_build_type, h1, h2]

/-- Witness for claim C7: tokens outside the tables come back unchanged. -/
theorem c7_witness :
    cargo_os_to_conan_os "unknown_os" = "unknown_os" ∧
    cargo_arch_to_conan_arch "wasm32" = "wasm32" ∧
    cargo_profile_to_conan_build_type "bench" = "bench" :=
  ⟨c7_platform_mapper.2.2.2.2.2.2.2.1 "unknown_os" (by decide),
   c7_platform_mapper.2.2.2.2.2.2.2.2.1 "wasm32" (by decide),
   c7_platform_mapper.2.2.2.2.2.2.2.2.2 "bench" (by decide) (by decide)⟩

/-! ## Build-info records (src/lib.rs lines 491-536)

serde's HashMaps are again embedded as association lists. -/

structure DependencyInfo where
  name : String
  version : String
  description : Option String
  rootpath : String
  sysroot : String
  include_paths : List String
  lib_paths : List String
  bin_paths : List String
  build_paths : List String
  res_paths : List String
  libs : List String
  system_libs : List String
  defines : List String
  cflags : List String
  cxxflags : List String
  sharedlinkflags : List String
  exelinkflags : List String
  frameworks : List String
  framework_paths : List String
  cppflags : List String
deriving DecidableEq

structure ConanBuildInfo where
  deps_env_info : List (String × List String)
  deps_user_info : List (String × List (String × String))
  dependencies : List DependencyInfo
  settings : List (String × String)
  options : List (String × List (String × String))
deriving DecidableEq

/-- `ConanBuildInfo::find_dependency` (src/lib.rs lines 533-535). -/
def ConanBuildInfo.find_dependency (b : ConanBuildInfo) (name : String) :
    Option DependencyInfo :=
  b.dependencies.find? (fun d => d.name == name)

lemma find_first {α : Type} (p : α → Bool) :
    ∀ (l : List α) (x : α), l.find? p = some x →
      p x = true ∧ ∃ l1 l2, l = l1 ++ x :: l2 ∧ ∀ y ∈ l1, p y = false := by
  intro l
  induction l with
  | nil => intro x h; cases h
  | cons a t ih =>
    intro x h
    by_cases hpa : p a = true
    · rw [List.find?_cons_of_pos _ hpa] at h
      injection h with hax
      subst hax
      exact ⟨hpa, [], t, rfl, by simp⟩
    · rw [List.find?_cons_of_neg _ hpa] at h
      obtain ⟨hpx, l1, l2, hdec, hall⟩ := ih x h
      refine ⟨hpx, a :: l1, l2, by rw [hdec]; rfl, ?_⟩
      intro y hy
      rcases List.mem_cons.mp hy with rfl | hy2
      · simpa using hpa
      · exact hall y hy2

/-- Claim C6: find_dependency returns the first dependency in stored list
order whose name equals the argument under exact string comparison, and
absence when no dependency has that name; every dependency before the
returned one has a different name, so later duplicates are never returned. -/
theorem c6_find_dependency_first_match (b : ConanBuildInfo) (name : String) :
    (ConanBuildInfo.find_dependency b name = none ↔
      ∀ d ∈ b.dependencies, d.name ≠ name) ∧
    (∀ d, ConanBuildInfo.find_dependency b name = some d →
      d.name = name ∧ ∃ l1 l2, b.dependencies = l1 ++ d :: l2 ∧
        ∀ e ∈ l1, e.name ≠ name) := by
  constructor
  · rw [ConanBuildInfo.find_dependency, List.find?_eq_none]
    constructor
    · intro h d hd
      simpa using h d hd
    · intro h d hd
      simpa using h d hd
  · intro d hd
    simp only [ConanBuildInfo.find_dependency] at hd
    obtain ⟨hp, l1, l2, hdec, hall⟩ :=
      find_first (fun e => e.name == name) b.dependencies d hd
    refine ⟨by simpa using hp, l1, l2, hdec, ?_⟩
    intro e he
    simpa using hall e he

/-- A dependency record with the given name and version and empty lists,
used as concrete input. -/
def depStub (n v : String) : DependencyInfo :=
  { name := n, version := v, description := none, rootpath := "", sysroot := "",
    include_paths := [], lib_paths := [], bin_paths := [], build_paths := [],
    res_paths := [], libs := [], system_libs := [], defines := [], cflags := [],
    cxxflags := [], sharedlinkflags := [], exelinkflags := [], frameworks := [],
    framework_paths := [], cppflags := [] }

/-- A build info with a duplicate dependency name later in the list. -/
def buildInfoExample : ConanBuildInfo :=
  { deps_env_info := [], deps_user_info := [],
    dependencies := [depStub "boost" "1.75", depStub "zlib" "1.2.11",
      depStub "zlib" "9.9.9"],
    settings := [], options := [] }

/-- Witness for claim C6: looking up "zlib" returns the first of the two
dependencies of that name and everything before it has another name. -/
theorem c6_witness :
    (depStub "zlib" "1.2.11").name = "zlib" ∧
    ∃ l1 l2, buildInfoExample.dependencies = l1 ++ depStub "zlib" "1.2.11" :: l2 ∧
      ∀ e ∈ l1, e.name ≠ "zlib" :=
  (c6_find_dependency_first_match buildInfoExample "zlib").2
    (depStub "zlib" "1.2.11") (by decide)

/-! ## Build-info decoder (src/lib.rs lines 491-531)

`create_from_json` is `serde_json::from_str(..).ok()`.  The textual JSON
grammar belongs to the serde_json library; its outcome is represented by an
`Option Json` value (`none` for structurally invalid JSON text, `some j` for
the parsed document).  The derived `Deserialize` impls of DependencyInfo and
ConanBuildInfo are modelled field by field from the struct definitions:
a required field is looked up by name and must decode at its type, a missing
or null optional `description` decodes to `none`, unknown fields are ignored
(serde's default).  Duplicate object keys are not modelled (serde rejects a
duplicated struct field; the model reads the first occurrence). -/

inductive Json where
  | null : Json
  | bool (b : Bool) : Json
  | num (n : Int) : Json
  | str (s : String) : Json
  | arr (items : List Json) : Json
  | obj (members : List (String × Json)) : Json

def jsonLookup : List (String × Json) → String → Option Json
  | [], _ => none
  | (k, v) :: rest, key => if k = key then some v else jsonLookup rest key

def decodeString : Json → Option String
  | Json.str s => some s
  | _ => none

def decodeStrings : List Json → Option (List String)
  | [] => some []
  | j :: rest => do
    let s ← decodeString j
    let ss ← decodeStrings rest
    some (s :: ss)

def decodeStringList : Json → Option (List String)
  | Json.arr items => decodeStrings items
  | _ => none

def decodeStringPairs : List (String × Json) → Option (List (String × String))
  | [] => some []
  | (k, j) :: rest => do
    let v ← decodeString j
    let vs ← decodeStringPairs rest
    some ((k, v) :: vs)

def decodeStringMap : Json → Option (List (String × String))
  | Json.obj members => decodeStringPairs members
  | _ => none

def decodeStringListPairs : List (String × Json) → Option (List (String × List String))
  | [] => some []
  | (k, j) :: rest => do
    let v ← decodeStringList j
    let vs ← decodeStringListPairs rest
    some ((k, v) :: vs)

def decodeStringListMap : Json → Option (List (String × List String))
  | Json.obj members => decodeStringListPairs members
  | _ => none

def decodeStringMapPairs :
    List (String × Json) → Option (List (String × List (String × String)))
  | [] => some []
  | (k, j) :: rest => do
    let v ← decodeStringMap j
    let vs ← decodeStringMapPairs rest
    some ((k, v) :: vs)

def decodeStringMapMap : Json → Option (List (String × List (String × String)))
  | Json.obj members => decodeStringMapPairs members
  | _ => none

/-- The optional `description: Option<String>` field: missing or null gives
absence, a string gives the value, anything else is a decode error. -/
def decodeOptString (members : List (String × Json)) (key : String) :
    Option (Option String) :=
  match jsonLookup members key with
  | none => some none
  | some Json.null => some none
  | some (Json.str s) => some (some s)
  | some _ => none

/-- Lookup of a required string field. -/
def getString (members : List (String × Json)) (key : String) : Option String :=
  Option.bind (jsonLookup members key) decodeString

/-- Lookup of a required list-of-strings field. -/
def getStringList (members : List (String × Json)) (key : String) :
    Option (List String) :=
  Option.bind (jsonLookup members key) decodeStringList

/-- Field extraction of the derived `Deserialize` of `DependencyInfo`
(src/lib.rs lines 491-513), given the members of the JSON object: every
required field must be present and decode at its type, the optional
description may be missing; any failure fails the whole record. -/
def DependencyInfo.fromJsonMembers (members : List (String × Json)) :
    Option DependencyInfo :=
  match getString members "name", getString members "version",
      decodeOptString members "description",
      getString members "rootpath", getString members "sysroot",
      getStringList members "include_paths", getStringList members "lib_paths",
      getStringList members "bin_paths", getStringList members "build_paths",
      getStringList members "res_paths", getStringList members "libs",
      getStringList members "system_libs", getStringList members "defines",
      getStringList members "cflags", getStringList members "cxxflags",
      getStringList members "sharedlinkflags",
      getStringList members "exelinkflags", getStringList members "frameworks",
      getStringList members "framework_paths",
      getStringList members "cppflags" with
  | some name, some version, some description, some rootpath, some sysroot,
    some include_paths, some lib_paths, some bin_paths, some build_paths,
    some res_paths, some libs, some system_libs, some defines, some cflags,
    some cxxflags, some sharedlinkflags, some exelinkflags, some frameworks,
    some framework_paths, some cppflags =>
      some { name := name, version := version, description := description,
             rootpath := rootpath, sysroot := sysroot,
             include_paths := include_paths, lib_paths := lib_paths,
             bin_paths := bin_paths, build_paths := build_paths,
             res_paths := res_paths, libs := libs, system_libs := system_libs,
             defines := defines, cflags := cflags, cxxflags := cxxflags,
             sharedlinkflags := sharedlinkflags, exelinkflags := exelinkflags,
             frameworks := frameworks, framework_paths := framework_paths,
             cppflags := cppflags }
  | _, _, _, _, _, _, _, _, _, _, _, _, _, _, _, _, _, _, _, _ => none

/-- The derived `Deserialize` of `DependencyInfo`: a JSON object decoded
through its members, anything else a failure. -/
def DependencyInfo.fromJson : Json → Option DependencyInfo
  | Json.obj members => DependencyInfo.fromJsonMembers members
  | _ => none

def decodeDependencies : List Json → Option (List DependencyInfo)
  | [] => some []
  | j :: rest => do
    let d ← DependencyInfo.fromJson j
    let ds ← decodeDependencies rest
    some (d :: ds)

def decodeDependencyList : Json → Option (List DependencyInfo)
  | Json.arr items => decodeDependencies items
  | _ => none

/-- Field extraction of the derived `Deserialize` of `ConanBuildInfo`
(src/lib.rs lines 515-522), given the members of the JSON object: all five
fields are required; any failure fails the whole record. -/
def ConanBuildInfo.fromJsonMembers (members : List (String × Json)) :
    Option ConanBuildInfo :=
  match Option.bind (jsonLookup members "deps_env_info") decodeStringListMap,
      Option.bind (jsonLookup members "deps_user_info") decodeStringMapMap,
      Option.bind (jsonLookup members "dependencies") decodeDependencyList,
      Option.bind (jsonLookup members "settings") decodeStringMap,
      Option.bind (jsonLookup members "options") decodeStringMapMap with
  | some deps_env_info, some deps_user_info, some dependencies, some settings,
    some options =>
      some { deps_env_info := deps_env_info, deps_user_info := deps_user_info,
             dependencies := dependencies, settings := settings,
             options := options }
  | _, _, _, _, _ => none

/-- The derived `Deserialize` of `ConanBuildInfo`: a JSON object decoded
through its members, anything else a failure. -/
def ConanBuildInfo.fromJson : Json → Option ConanBuildInfo
  | Json.obj members => ConanBuildInfo.fromJsonMembers members
  | _ => none

/-- `ConanBuildInfo::create_from_json` (src/lib.rs lines 525-527): the
serde_json text parse (external, given as `Option Json`) followed by the
derived decoding; any failure collapses to `none`. -/
def ConanBuildInfo.create_from_json (parsed_text : Option Json) :
    Option ConanBuildInfo :=
  Option.bind parsed_text ConanBuildInfo.fromJson

/-! ## Encoding to the schema shape (for the round-trip property)

The crate only decodes; the encoder below follows the spec's schema
description (sections 3 and 6). -/

/-- Modelled from the spec: JSON shape of an ordered list of strings. -/
def encodeStringList (l : List String) : Json :=
  Json.arr (l.map Json.str)

/-- Modelled from the spec: JSON shape of a map of string to string. -/
def encodeStringMap (m : List (String × String)) : Json :=
  Json.obj (m.map (fun kv => (kv.1, Json.str kv.2)))

/-- Modelled from the spec: JSON shape of a map of name to ordered list of
strings. -/
def encodeStringListMap (m : List (String × List String)) : Json :=
  Json.obj (m.map (fun kv => (kv.1, encodeStringList kv.2)))

/-- Modelled from the spec: JSON shape of a map of name to map of string to
string. -/
def encodeStringMapMap (m : List (String × List (String × String))) : Json :=
  Json.obj (m.map (fun kv => (kv.1, encodeStringMap kv.2)))

/-- Modelled from the spec: the members of a dependency record in the
schema, with the optional description omitted when absent. -/
def DependencyInfo.toJsonMembers (d : DependencyInfo) : List (String × Json) :=
  [("name", Json.str d.name), ("version", Json.str d.version)]
  ++ (match d.description with
      | some s => [("description", Json.str s)]
      | none => [])
  ++ [("rootpath", Json.str d.rootpath), ("sysroot", Json.str d.sysroot),
      ("include_paths", encodeStringList d.include_paths),
      ("lib_paths", encodeStringList d.lib_paths),
      ("bin_paths", encodeStringList d.bin_paths),
      ("build_paths", encodeStringList d.build_paths),
      ("res_paths", encodeStringList d.res_paths),
      ("libs", encodeStringList d.libs),
      ("system_libs", encodeStringList d.system_libs),
      ("defines", encodeStringList d.defines),
      ("cflags", encodeStringList d.cflags),
      ("cxxflags", encodeStringList d.cxxflags),
      ("sharedlinkflags", encodeStringList d.sharedlinkflags),
      ("exelinkflags", encodeStringList d.exelinkflags),
      ("frameworks", encodeStringList d.frameworks),
      ("framework_paths", encodeStringList d.framework_paths),
      ("cppflags", encodeStringList d.cppflags)]

/-- Modelled from the spec: a dependency record in the schema's JSON shape. -/
def DependencyInfo.toJson (d : DependencyInfo) : Json :=
  Json.obj (DependencyInfo.toJsonMembers d)

/-- Modelled from the spec: a build-info document in the schema's JSON
shape, with the five top-level fields of section 6. -/
def ConanBuildInfo.toJson (b : ConanBuildInfo) : Json :=
  Json.obj [("deps_env_info", encodeStringListMap b.deps_env_info),
            ("deps_user_info", encodeStringMapMap b.deps_user_info),
            ("dependencies", Json.arr (b.dependencies.map DependencyInfo.toJson)),
            ("settings", encodeStringMap b.settings),
            ("options", encodeStringMapMap b.options)]

/-! ## Round-trip lemmas -/

@[simp] lemma decodeStrings_map (l : List String) :
    decodeStrings (l.map Json.str) = some l := by
  induction l with
  | nil => rfl
  | cons s t ih => simp [decodeStrings, decodeString, ih]

@[simp] lemma decodeStringList_encode (l : List String) :
    decodeStringList (encodeStringList l) = some l := by
  simp [decodeStringList, encodeStringList]

@[simp] lemma decodeStringPairs_map (m : List (String × String)) :
    decodeStringPairs (m.map (fun kv => (kv.1, Json.str kv.2))) = some m := by
  induction m with
  | nil => rfl
  | cons p t ih =>
    obtain ⟨k, v⟩ := p
    simp [decodeStringPairs, decodeString, ih]

@[simp] lemma decodeStringMap_encode (m : List (String × String)) :
    decodeStringMap (encodeStringMap m) = some m := by
  simp [decodeStringMap, encodeStringMap]

@[simp] lemma decodeStringListPairs_map (m : List (String × List String)) :
    decodeStringListPairs (m.map (fun kv => (kv.1, encodeStringList kv.2)))
      = some m := by
  induction m with
  | nil => rfl
  | cons p t ih =>
    obtain ⟨k, v⟩ := p
    simp [decodeStringListPairs, ih]

@[simp] lemma decodeStringListMap_encode (m : List (String × List String)) :
    decodeStringListMap (encodeStringListMap m) = some m := by
  simp [decodeStringListMap, encodeStringListMap]

@[simp] lemma decodeStringMapPairs_map (m : List (String × List (String × String))) :
    decodeStringMapPairs (m.map (fun kv => (kv.1, encodeStringMap kv.2)))
      = some m := by
  induction m with
  | nil => rfl
  | cons p t ih =>
    obtain ⟨k, v⟩ := p
    simp [decodeStringMapPairs, ih]

@[simp] lemma decodeStringMapMap_encode (m : List (String × List (String × String))) :
    decodeStringMapMap (encodeStringMapMap m) = some m := by
  simp [decodeStringMapMap, encodeStringMapMap]

lemma dependency_roundtrip (d : DependencyInfo) :
    DependencyInfo.fromJson (DependencyInfo.toJson d) = some d := by
  obtain ⟨name, version, description, rootpath, sysroot, ip, lp, bp, bdp, rp,
    libs, slibs, defs, cf, cxf, slf, elf, fw, fwp, cpf⟩ := d
  cases description with
  | none =>
    simp [DependencyInfo.toJson, DependencyInfo.toJsonMembers,
      DependencyInfo.fromJson, DependencyInfo.fromJsonMembers, getString,
      getStringList, decodeOptString, jsonLookup, decodeString]
  | some s =>
    simp [DependencyInfo.toJson, DependencyInfo.toJsonMembers,
      DependencyInfo.fromJson, DependencyInfo.fromJsonMembers, getString,
      getStringList, decodeOptString, jsonLookup, decodeString]

lemma decodeDependencies_map (deps : List DependencyInfo) :
    decodeDependencies (deps.map DependencyInfo.toJson) = some deps := by
  induction deps with
  | nil => rfl
  | cons d t ih => simp [decodeDependencies, dependency_roundtrip d, ih]

/-- Claim C9: encoding a build-info record to the schema's JSON shape and
decoding it back with the build-info decoder yields an equal record, field
by field. -/
theorem c9_roundtrip (b : ConanBuildInfo) :
    ConanBuildInfo.fromJson (ConanBuildInfo.toJson b) = some b := by
  obtain ⟨dei, dui, deps, settings, options⟩ := b
  simp [ConanBuildInfo.toJson, ConanBuildInfo.fromJson,
    ConanBuildInfo.fromJsonMembers, jsonLookup, decodeDependencyList,
    decodeDependencies_map]

/-- Claim C5: a document matching the schema with the optional description
missing decodes successfully with that field absent; structurally invalid
JSON text (a failed parse) and a document missing a required field both
yield an overall decode failure, with no partial record. -/
theorem c5_decode_failures :
    (∀ d : DependencyInfo, d.description = none →
        jsonLookup (DependencyInfo.toJsonMembers d) "description" = none ∧
        DependencyInfo.fromJson (DependencyInfo.toJson d) = some d) ∧
    ConanBuildInfo.create_from_json none = none ∧
    (∀ members, jsonLookup members "name" = none →
        DependencyInfo.fromJson (Json.obj members) = none) ∧
    (∀ members, jsonLookup members "dependencies" = none →
        ConanBuildInfo.fromJson (Json.obj members) = none) := by
  refine ⟨fun d hdesc => ⟨?_, dependency_roundtrip d⟩, rfl, fun members h => ?_,
    fun members h => ?_⟩
  · obtain ⟨name, version, description, rootpath, sysroot, ip, lp, bp, bdp, rp,
      libs, slibs, defs, cf, cxf, slf, elf, fw, fwp, cpf⟩ := d
    simp only at hdesc
    simp [DependencyInfo.toJsonMembers, hdesc, jsonLookup]
  · simp [DependencyInfo.fromJson, DependencyInfo.fromJsonMembers, getString, h]
  · cases h1 : Option.bind (jsonLookup members "deps_env_info") decodeStringListMap with
    | none =>
      simp [ConanBuildInfo.fromJson, ConanBuildInfo.fromJsonMembers, h1]
    | some x =>
      cases h2 : Option.bind (jsonLookup members "deps_user_info") decodeStringMapMap with
      | none =>
        simp [ConanBuildInfo.fromJson, ConanBuildInfo.fromJsonMembers, h1, h2]
      | some y =>
        simp [ConanBuildInfo.fromJson, ConanBuildInfo.fromJsonMembers, h1, h2, h]

/-- Witness for claim C5 at a concrete dependency and concrete documents. -/
theorem c5_witness :
    (jsonLookup (DependencyInfo.toJsonMembers (depStub "zlib" "1.2.11"))
        "description" = none ∧
      DependencyInfo.fromJson (DependencyInfo.toJson (depStub "zlib" "1.2.11"))
        = some (depStub "zlib" "1.2.11")) ∧
    DependencyInfo.fromJson (Json.obj []) = none ∧
    ConanBuildInfo.fromJson (Json.obj []) = none :=
  ⟨c5_decode_failures.1 (depStub "zlib" "1.2.11") rfl,
   c5_decode_failures.2.2.1 [] rfl,
   c5_decode_failures.2.2.2 [] rfl⟩

/-! ## Output parsers (src/lib.rs lines 33-93)

`determine_version` and `get_remote_list` spawn the tool (external
collaborator) and parse the captured stdout; the embedding models the pure
parsing of that text.  The two fixed regexes are

  CONAN_VERSION_REGEX = "Conan version ([\d\.]+)"
  CONAN_REMOTE_REGEX  = "(\S+) (\S+) (True|False)"

and `Regex::captures` performs a leftmost search: start positions are tried
left to right and at each start the pattern must match a prefix of the
remaining text; trailing text is ignored.  For this pattern a `\S+` run
followed by a literal space can only be the maximal non-whitespace run, so
the search below needs no further backtracking.  `\s`/`\d` are modelled on
their ASCII parts (the parsed tool output is ASCII). -/

/-- The regex class `\s` (ASCII part). -/
def isWhite (c : Char) : Bool :=
  c = ' ' || c = '\t' || c = '\n' || c = '\x0b' || c = '\x0c' || c = '\r'

/-- Split a character list at every occurrence of a delimiter; n delimiters
give n+1 pieces. -/
def splitOnChar (d : Char) : List Char → List (List Char)
  | [] => [[]]
  | c :: rest =>
    if c = d then [] :: splitOnChar d rest
    else
      match splitOnChar d rest with
      | [] => [[c]]
      | l :: ls => (c :: l) :: ls

/-- Remove one trailing carriage return if present. -/
def stripTrailingCR (l : List Char) : List Char :=
  match l.reverse with
  | '\r' :: rest => rest.reverse
  | _ => l

/-- Rust `str::lines()`: split at newline characters, strip one `\r` from
every piece that was terminated by a newline, and drop a final empty piece
(the optional final line ending). -/
def rustLines (s : String) : List String :=
  let ps := splitOnChar '\n' s.data
  (ps.dropLast.map (fun l => String.mk (stripTrailingCR l)))
  ++ (match ps.getLast? with
      | some [] => []
      | some l => [String.mk l]
      | none => [])

/-- One attempt of CONAN_REMOTE_REGEX at a fixed start position: a nonempty
`\S+` run, a space, a nonempty `\S+` run, a space, then the literal `True`
or `False` as a prefix of the remainder. -/
def matchRemoteAt (cs : List Char) : Option (String × String × Bool) :=
  if cs.takeWhile (fun c => !(isWhite c)) = [] then none
  else
    match cs.dropWhile (fun c => !(isWhite c)) with
    | ' ' :: rest1 =>
      if rest1.takeWhile (fun c => !(isWhite c)) = [] then none
      else
        match rest1.dropWhile (fun c => !(isWhite c)) with
        | ' ' :: rest2 =>
          if rest2.take 4 = "True".data then
            some (String.mk (cs.takeWhile (fun c => !(isWhite c))),
                  String.mk (rest1.takeWhile (fun c => !(isWhite c))), true)
          else if rest2.take 5 = "False".data then
            some (String.mk (cs.takeWhile (fun c => !(isWhite c))),
                  String.mk (rest1.takeWhile (fun c => !(isWhite c))), false)
          else none
        | _ => none
    | _ => none

/-- The leftmost search of `CONAN_REMOTE_REGEX.captures`. -/
def searchRemote : List Char → Option (String × String × Bool)
  | [] => none
  | c :: cs =>
    match matchRemoteAt (c :: cs) with
    | some m => some m
    | none => searchRemote cs

structure Remote where
  name : String
  url : String
  verify_ssl : Option Bool
deriving DecidableEq

/-- The per-line loop of `get_remote_list` (src/lib.rs lines 83-90): each
line must produce captures, the first failure aborts the whole parse via
`?`. -/
def parseRemoteLines : List String → Option (List Remote)
  | [] => some []
  | line :: rest => do
    let m ← searchRemote line.data
    let rs ← parseRemoteLines rest
    some (⟨m.1, m.2.1, some m.2.2⟩ :: rs)

/-- `Conan::get_remote_list` (src/lib.rs lines 69-93) on the captured
stdout text. -/
def Conan.get_remote_list (stdout : String) : Option (List Remote) :=
  parseRemoteLines (rustLines stdout)

/-- Modelled from the spec: a single line matching the grammar
`<name> <url> <True|False>` in full - name and url nonempty non-whitespace
tokens separated by single spaces, the boolean literal exactly the rest of
the line. -/
def specRemoteLine (line : String) : Option Remote :=
  match splitOnChar ' ' line.data with
  | [n, u, b] =>
    if n ≠ [] ∧ u ≠ [] ∧ (∀ c ∈ n, isWhite c = false) ∧
        (∀ c ∈ u, isWhite c = false) then
      if b = "True".data then some ⟨String.mk n, String.mk u, some true⟩
      else if b = "False".data then some ⟨String.mk n, String.mk u, some false⟩
      else none
    else none
  | _ => none

/-- Modelled from the spec: the whole-input remote grammar, all lines
matching in full. -/
def specParseLines : List String → Option (List Remote)
  | [] => some []
  | line :: rest => do
    let r ← specRemoteLine line
    let rs ← specParseLines rest
    some (r :: rs)

/-- The regex class `[\d\.]`. -/
def isVerChar (c : Char) : Bool :=
  c.isDigit || c = '.'

/-- One attempt of CONAN_VERSION_REGEX at a fixed start position: the
literal phrase, then a nonempty greedy run of `[\d\.]` as group 1. -/
def matchVersionAt (cs : List Char) : Option String :=
  if cs.take 14 = "Conan version ".data then
    if (cs.drop 14).takeWhile isVerChar = [] then none
    else some (String.mk ((cs.drop 14).takeWhile isVerChar))
  else none

/-- The leftmost search of `CONAN_VERSION_REGEX.captures`. -/
def searchVersion : List Char → Option String
  | [] => none
  | c :: cs =>
    match matchVersionAt (c :: cs) with
    | some v => some v
    | none => searchVersion cs

/-- `Conan::determine_version` (src/lib.rs lines 56-67) on the captured
stdout text. -/
def Conan.determine_version (stdout : String) : Option String :=
  searchVersion stdout.data

example : Conan.determine_version "Conan version 1.34.0\n" = some "1.34.0" := by
  decide

example : Conan.get_remote_list "conan-center https://center.conan.io True\n"
    = some [⟨"conan-center", "https://center.conan.io", some true⟩] := by
  decide

example : Conan.get_remote_list "a b True\nc d\n" = none := by decide

example : Conan.get_remote_list "a b True x" = some [⟨"a", "b", some true⟩] := by
  decide

example : specRemoteLine "a b True x" = none := by decide

example : specRemoteLine "a b True" = some ⟨"a", "b", some true⟩ := by decide

/-! ## Remote-list parser: proofs -/

lemma takeWhile_append_stop (p : Char → Bool) (l1 : List Char) (c : Char)
    (l2 : List Char) (hall : ∀ x ∈ l1, p x = true) (hc : p c = false) :
    (l1 ++ c :: l2).takeWhile p = l1 ∧ (l1 ++ c :: l2).dropWhile p = c :: l2 := by
  induction l1 with
  | nil =>
    constructor
    · simp [List.takeWhile_cons, hc]
    · simp [List.dropWhile_cons, hc]
  | cons a t ih =>
    have ha : p a = true := hall a (List.mem_cons_self a t)
    obtain ⟨h1, h2⟩ := ih (fun x hx => hall x (List.mem_cons_of_mem a hx))
    constructor
    · simp [List.takeWhile_cons, ha, h1]
    · simp [List.dropWhile_cons, ha, h2]

lemma matchRemoteAt_grammar (n u rest : List Char)
    (hn : n ≠ []) (hu : u ≠ [])
    (hnw : ∀ c ∈ n, isWhite c = false) (huw : ∀ c ∈ u, isWhite c = false) :
    matchRemoteAt (n ++ ' ' :: (u ++ ' ' :: rest)) =
      (if rest.take 4 = "True".data then some (String.mk n, String.mk u, true)
       else if rest.take 5 = "False".data then
         some (String.mk n, String.mk u, false)
       else none) := by
  have h1 := takeWhile_append_stop (fun c => !(isWhite c)) n ' ' (u ++ ' ' :: rest)
    (fun x hx => by simp [hnw x hx]) (by simp [isWhite])
  have h2 := takeWhile_append_stop (fun c => !(isWhite c)) u ' ' rest
    (fun x hx => by simp [huw x hx]) (by simp [isWhite])
  simp [matchRemoteAt, h1.1, h1.2, h2.1, h2.2, hn, hu]

lemma searchRemote_of_matchAt {cs : List Char} {m : String × String × Bool}
    (h : matchRemoteAt cs = some m) : searchRemote cs = some m := by
  cases cs with
  | nil =>
    have hnone : matchRemoteAt [] = none := by decide
    rw [hnone] at h
    simp at h
  | cons c rest =>
    simp only [searchRemote]
    rw [h]

def joinWithChar (d : Char) : List (List Char) → List Char
  | [] => []
  | [l] => l
  | l :: ls => l ++ d :: joinWithChar d ls

lemma splitOnChar_ne_nil (d : Char) (cs : List Char) : splitOnChar d cs ≠ [] := by
  cases cs with
  | nil => simp [splitOnChar]
  | cons c rest =>
    simp only [splitOnChar]
    by_cases hc : c = d
    · simp [hc]
    · rw [if_neg hc]
      cases hrec : splitOnChar d rest with
      | nil => simp
      | cons l ls => simp

lemma joinWithChar_cons (d : Char) (l p : List Char) (ps : List (List Char)) :
    joinWithChar d (l :: p :: ps) = l ++ d :: joinWithChar d (p :: ps) := rfl

lemma splitOnChar_join (d : Char) (cs : List Char) :
    joinWithChar d (splitOnChar d cs) = cs := by
  induction cs with
  | nil => rfl
  | cons c rest ih =>
    simp only [splitOnChar]
    by_cases hc : c = d
    · rw [if_pos hc]
      cases hrec : splitOnChar d rest with
      | nil => exact absurd hrec (splitOnChar_ne_nil d rest)
      | cons p ps =>
        rw [hrec] at ih
        rw [joinWithChar_cons, ih, hc]
        rfl
    · rw [if_neg hc]
      cases hrec : splitOnChar d rest with
      | nil => exact absurd hrec (splitOnChar_ne_nil d rest)
      | cons p ps =>
        rw [hrec] at ih
        cases ps with
        | nil =>
          simp only [joinWithChar] at ih ⊢
          simp [ih]
        | cons q qs =>
          rw [joinWithChar_cons]
          rw [joinWithChar_cons] at ih
          simp [ih]

lemma specRemoteLine_implies_search {line : String} {r : Remote}
    (h : specRemoteLine line = some r) :
    ∃ b, searchRemote line.data = some (r.name, r.url, b) ∧
      r.verify_ssl = some b := by
  simp only [specRemoteLine] at h
  cases hs : splitOnChar ' ' line.data with
  | nil => rw [hs] at h; simp at h
  | cons n t1 =>
    cases t1 with
    | nil => rw [hs] at h; simp at h
    | cons u t2 =>
      cases t2 with
      | nil => rw [hs] at h; simp at h
      | cons b t3 =>
        cases t3 with
        | cons x t4 => rw [hs] at h; simp at h
        | nil =>
          rw [hs] at h
          replace h :
              (if n ≠ [] ∧ u ≠ [] ∧ (∀ c ∈ n, isWhite c = false) ∧
                  (∀ c ∈ u, isWhite c = false) then
                if b = "True".data then
                  some (⟨String.mk n, String.mk u, some true⟩ : Remote)
                else if b = "False".data then
                  some (⟨String.mk n, String.mk u, some false⟩ : Remote)
                else none
              else none) = some r := h
          have hline : line.data = n ++ ' ' :: (u ++ ' ' :: b) := by
            have hj := splitOnChar_join ' ' line.data
            rw [hs] at hj
            rw [← hj]
            rfl
          by_cases hcond : (n ≠ [] ∧ u ≠ [] ∧ (∀ c ∈ n, isWhite c = false) ∧
              (∀ c ∈ u, isWhite c = false))
          · rw [if_pos hcond] at h
            obtain ⟨hn, hu, hnw, huw⟩ := hcond
            by_cases hb : b = "True".data
            · rw [if_pos hb] at h
              injection h with hr
              subst hr
              refine ⟨true, ?_, rfl⟩
              rw [hline, hb]
              apply searchRemote_of_matchAt
              rw [matchRemoteAt_grammar n u "True".data hn hu hnw huw,
                if_pos (show ("True".data.take 4 = "True".data) by decide)]
            · rw [if_neg hb] at h
              by_cases hb2 : b = "False".data
              · rw [if_pos hb2] at h
                injection h with hr
                subst hr
                refine ⟨false, ?_, rfl⟩
                rw [hline, hb2]
                apply searchRemote_of_matchAt
                rw [matchRemoteAt_grammar n u "False".data hn hu hnw huw,
                  if_neg (show ¬ ("False".data.take 4 = "True".data) by decide),
                  if_pos (show ("False".data.take 5 = "False".data) by decide)]
              · rw [if_neg hb2] at h
                simp at h
          · rw [if_neg hcond] at h
            simp at h

lemma specParse_implies_parse : ∀ (ls : List String) (rs : List Remote),
    specParseLines ls = some rs → parseRemoteLines ls = some rs := by
  intro ls
  induction ls with
  | nil => intro rs h; exact h
  | cons line rest ih =>
    intro rs h
    simp only [specParseLines] at h
    cases hr : specRemoteLine line with
    | none => rw [hr] at h; simp at h
    | some r =>
      rw [hr] at h
      cases hrest : specParseLines rest with
      | none => rw [hrest] at h; simp at h
      | some rs2 =>
        rw [hrest] at h
        simp at h
        subst h
        obtain ⟨b, hsearch, hssl⟩ := specRemoteLine_implies_search hr
        have hrec := ih rs2 hrest
        have hr2 : (⟨r.name, r.url, some b⟩ : Remote) = r := by
          cases r
          simp at hssl
          simp [hssl]
        simp [parseRemoteLines, hsearch, hrec, hr2]

lemma parseRemoteLines_eq_none : ∀ ls : List String,
    parseRemoteLines ls = none ↔ ∃ line ∈ ls, searchRemote line.data = none := by
  intro ls
  induction ls with
  | nil => simp [parseRemoteLines]
  | cons line rest ih =>
    constructor
    · intro h
      simp only [parseRemoteLines] at h
      cases hs : searchRemote line.data with
      | none => exact ⟨line, List.mem_cons_self _ _, hs⟩
      | some m =>
        rw [hs] at h
        cases hp : parseRemoteLines rest with
        | none =>
          obtain ⟨l2, hl2, hnone⟩ := ih.mp hp
          exact ⟨l2, List.mem_cons_of_mem _ hl2, hnone⟩
        | some rs =>
          rw [hp] at h
          simp at h
    · rintro ⟨l2, hl2, hnone⟩
      simp only [parseRemoteLines]
      rcases List.mem_cons.mp hl2 with rfl | hmem
      · rw [hnone]
        rfl
      · cases hs : searchRemote line.data with
        | none => rfl
        | some m =>
          rw [ih.mpr ⟨l2, hmem, hnone⟩]
          rfl

/-- Claim C2 (amended): if every line of the output matches the full-line
grammar `<name> <url> <True|False>`, get_remote_list returns the Remote
records in line order with verify_ssl true exactly for the literal True;
and the whole parse returns absence exactly when some line contains no
occurrence of the searched pattern - a line that fails the full-line
grammar but contains a match as an infix (extra surrounding text) is still
accepted, so only pattern-free lines abort the parse; in either direction
no partial result is ever returned. -/
theorem c2_remote_list_extraction (s : String) :
    (∀ rs, specParseLines (rustLines s) = some rs →
        Conan.get_remote_list s = some rs) ∧
    (Conan.get_remote_list s = none ↔
        ∃ line ∈ rustLines s, searchRemote line.data = none) :=
  ⟨fun rs h => specParse_implies_parse (rustLines s) rs h,
   parseRemoteLines_eq_none (rustLines s)⟩

/-- Claim C2, counterexample: the line "a b True x" does not match the
grammar `<name> <url> <True|False>` (it has a fourth token), yet the parser
accepts the input and returns a record rather than absence, because the
regex is searched inside the line. -/
theorem c2_counterexample :
    specRemoteLine "a b True x" = none ∧
    Conan.get_remote_list "a b True x" = some [⟨"a", "b", some true⟩] := by
  decide

/-- Witness for claim C2 on the spec's own example input. -/
theorem c2_witness :
    Conan.get_remote_list "conan-center https://center.conan.io True\n"
      = some [⟨"conan-center", "https://center.conan.io", some true⟩] :=
  (c2_remote_list_extraction "conan-center https://center.conan.io True\n").1
    [⟨"conan-center", "https://center.conan.io", some true⟩] (by decide)

/-! ## Version parser: proofs -/

lemma dropWhile_head_false (p : Char → Bool) (l : List Char) (c : Char)
    (h : (l.dropWhile p).head? = some c) : p c = false := by
  have hnot := List.head?_dropWhile_not p l
  rw [h] at hnot
  exact hnot

lemma matchVersionAt_some {cs : List Char} {v : String}
    (h : matchVersionAt cs = some v) :
    cs = "Conan version ".data ++ v.data ++ (cs.drop 14).dropWhile isVerChar ∧
    v.data ≠ [] ∧ (∀ c ∈ v.data, isVerChar c = true) ∧
    (∀ c, ((cs.drop 14).dropWhile isVerChar).head? = some c →
      isVerChar c = false) := by
  rw [matchVersionAt] at h
  by_cases h14 : cs.take 14 = "Conan version ".data
  · rw [if_pos h14] at h
    by_cases hemp : (cs.drop 14).takeWhile isVerChar = []
    · rw [if_pos hemp] at h
      simp at h
    · rw [if_neg hemp] at h
      injection h with hv
      subst hv
      refine ⟨?_, by simpa using hemp, ?_, ?_⟩
      · conv_lhs => rw [← List.take_append_drop 14 cs]
        rw [h14]
        have hsplit : cs.drop 14
            = (cs.drop 14).takeWhile isVerChar
              ++ (cs.drop 14).dropWhile isVerChar :=
          (List.takeWhile_append_dropWhile isVerChar (cs.drop 14)).symm
        conv_lhs => rw [hsplit]
        simp [List.append_assoc]
      · intro c hc
        exact List.mem_takeWhile_imp hc
      · intro c hc
        exact dropWhile_head_false isVerChar (cs.drop 14) c hc
  · rw [if_neg h14] at h
    simp at h

lemma searchVersion_sound : ∀ (cs : List Char) (v : String),
    searchVersion cs = some v →
    ∃ pre post, cs = pre ++ "Conan version ".data ++ v.data ++ post ∧
      v.data ≠ [] ∧ (∀ c ∈ v.data, isVerChar c = true) ∧
      (∀ c, post.head? = some c → isVerChar c = false) := by
  intro cs
  induction cs with
  | nil => intro v h; simp [searchVersion] at h
  | cons c rest ih =>
    intro v h
    simp only [searchVersion] at h
    cases hm : matchVersionAt (c :: rest) with
    | some w =>
      rw [hm] at h
      simp at h
      subst h
      obtain ⟨hdec, hne, hall, hpost⟩ := matchVersionAt_some hm
      exact ⟨[], ((c :: rest).drop 14).dropWhile isVerChar,
        by simpa using hdec, hne, hall, hpost⟩
    | none =>
      rw [hm] at h
      obtain ⟨pre, post, hdec, hne, hall, hpost⟩ := ih v h
      exact ⟨c :: pre, post, by simp [hdec], hne, hall, hpost⟩

lemma searchVersion_isSome_of_matchAt {cs : List Char}
    (h : (matchVersionAt cs).isSome = true) : (searchVersion cs).isSome = true := by
  cases cs with
  | nil =>
    have hnone : matchVersionAt [] = none := by decide
    rw [hnone] at h
    simp at h
  | cons c rest =>
    simp only [searchVersion]
    cases hm : matchVersionAt (c :: rest) with
    | some v => rfl
    | none =>
      rw [hm] at h
      simp at h

lemma searchVersion_complete : ∀ (pre : List Char) (c : Char) (post : List Char),
    isVerChar c = true →
    (searchVersion (pre ++ "Conan version ".data ++ c :: post)).isSome = true := by
  intro pre
  induction pre with
  | nil =>
    intro c post hc
    apply searchVersion_isSome_of_matchAt
    rw [matchVersionAt]
    have hlen : ("Conan version ".data).length = 14 := by decide
    have ht : (([] : List Char) ++ "Conan version ".data ++ c :: post).take 14
        = "Conan version ".data := by
      simp only [List.nil_append]
      exact List.take_left' hlen
    have hd : (([] : List Char) ++ "Conan version ".data ++ c :: post).drop 14
        = c :: post := by
      simp only [List.nil_append]
      exact List.drop_left' hlen
    rw [ht, hd]
    simp [List.takeWhile_cons, hc]
  | cons a pre ih =>
    intro c post hc
    have hshape : ((a :: pre) ++ "Conan version ".data) ++ c :: post
        = a :: ((pre ++ "Conan version ".data) ++ c :: post) := by
      simp
    rw [hshape]
    simp only [searchVersion]
    cases hm : matchVersionAt (a :: ((pre ++ "Conan version ".data) ++ c :: post)) with
    | some v => rfl
    | none => exact ih c post hc

/-- Claim C8: version extraction returns the dotted numeric token following
the literal phrase "Conan version " when such a match exists anywhere in the
input, and an explicit absence - never an error - when no matching substring
exists; on "Conan version 1.34.0\n" it yields "1.34.0". -/
theorem c8_version_extraction :
    Conan.determine_version "Conan version 1.34.0\n" = some "1.34.0" ∧
    (∀ s v, Conan.determine_version s = some v →
        ∃ pre post, s.data = pre ++ "Conan version ".data ++ v.data ++ post ∧
          v.data ≠ [] ∧ (∀ c ∈ v.data, isVerChar c = true) ∧
          (∀ c, post.head? = some c → isVerChar c = false)) ∧
    (∀ s, Conan.determine_version s = none ↔
        ¬ ∃ pre c post, s.data = pre ++ "Conan version ".data ++ c :: post ∧
          isVerChar c = true) := by
  refine ⟨by decide, fun s v h => searchVersion_sound s.data v h,
    fun s => ⟨?_, ?_⟩⟩
  · intro h hex
    obtain ⟨pre, c, post, hdec, hc⟩ := hex
    have hsome := searchVersion_complete pre c post hc
    rw [← hdec] at hsome
    have h2 : searchVersion s.data = none := h
    rw [h2] at hsome
    simp at hsome
  · intro hnot
    cases hv : Conan.determine_version s with
    | none => rfl
    | some v =>
      obtain ⟨pre, post, hdec, hne, hall, hpost⟩ := searchVersion_sound s.data v hv
      cases hvd : v.data with
      | nil => exact absurd hvd hne
      | cons c vrest =>
        refine absurd ⟨pre, c, vrest ++ post, ?_, ?_⟩ hnot
        · rw [hdec, hvd]
          simp
        · exact hall c (by rw [hvd]; exact List.mem_cons_self c vrest)

/-- Witness for claim C8: the match of the spec's example, produced by the
soundness direction of the claim theorem. -/
theorem c8_witness :
    ∃ pre post, ("Conan version 1.34.0\n").data
        = pre ++ "Conan version ".data ++ ("1.34.0" : String).data ++ post ∧
      ("1.34.0" : String).data ≠ [] ∧
      (∀ c ∈ ("1.34.0" : String).data, isVerChar c = true) ∧
      (∀ c, post.head? = some c → isVerChar c = false) :=
  c8_version_extraction.2.1 "Conan version 1.34.0\n" "1.34.0" (by decide)
